import Mathlib

set_option maxHeartbeats 1000000

/- Shallow embedding of the ipaddr-from-str library (src/lib.rs, src/errors.rs).
   Strings are modelled as `List Char`; machine integers as `Nat` with explicit
   bounds checks where the Rust code checks them. -/

/-- Unicode general-category Nd (decimal digit) code-point ranges: the character
class matched by the regex crate's Unicode-aware digit class, which the
classifier's pattern uses for every component character. -/
def ndRanges : List (Nat × Nat) := [
  (0x30, 0x39), (0x660, 0x669), (0x6F0, 0x6F9), (0x7C0, 0x7C9),
  (0x966, 0x96F), (0x9E6, 0x9EF), (0xA66, 0xA6F), (0xAE6, 0xAEF),
  (0xB66, 0xB6F), (0xBE6, 0xBEF), (0xC66, 0xC6F), (0xCE6, 0xCEF),
  (0xD66, 0xD6F), (0xDE6, 0xDEF), (0xE50, 0xE59), (0xED0, 0xED9),
  (0xF20, 0xF29), (0x1040, 0x1049), (0x1090, 0x1099), (0x17E0, 0x17E9),
  (0x1810, 0x1819), (0x1946, 0x194F), (0x19D0, 0x19D9), (0x1A80, 0x1A89),
  (0x1A90, 0x1A99), (0x1B50, 0x1B59), (0x1BB0, 0x1BB9), (0x1C40, 0x1C49),
  (0x1C50, 0x1C59), (0xA620, 0xA629), (0xA8D0, 0xA8D9), (0xA900, 0xA909),
  (0xA9D0, 0xA9D9), (0xA9F0, 0xA9F9), (0xAA50, 0xAA59), (0xABF0, 0xABF9),
  (0xFF10, 0xFF19), (0x104A0, 0x104A9), (0x10D30, 0x10D39), (0x11066, 0x1106F),
  (0x110F0, 0x110F9), (0x11136, 0x1113F), (0x111D0, 0x111D9), (0x112F0, 0x112F9),
  (0x11450, 0x11459), (0x114D0, 0x114D9), (0x11650, 0x11659), (0x116C0, 0x116C9),
  (0x11730, 0x11739), (0x118E0, 0x118E9), (0x11950, 0x11959), (0x11C50, 0x11C59),
  (0x11D50, 0x11D59), (0x11DA0, 0x11DA9), (0x16A60, 0x16A69), (0x16AC0, 0x16AC9),
  (0x16B50, 0x16B59), (0x1D7CE, 0x1D7FF), (0x1E140, 0x1E149), (0x1E2F0, 0x1E2F9),
  (0x1E4F0, 0x1E4F9), (0x1E950, 0x1E959), (0x1FBF0, 0x1FBF9)]

/-- A character matched by the pattern's digit class (Unicode Nd). -/
def isNd (c : Char) : Bool :=
  ndRanges.any fun p => decide (p.1 ≤ c.toNat) && decide (c.toNat ≤ p.2)

/-- ASCII decimal digit, code points 48 to 57. -/
def isAsciiDigit (c : Char) : Bool := decide (48 ≤ c.toNat) && decide (c.toNat ≤ 57)

/-- Base-10 value of a string of ASCII digits. -/
def digitsVal (cs : List Char) : Nat := cs.foldl (fun acc c => acc * 10 + (c.toNat - 48)) 0

/-- Rust's u8 string parse (from_str_radix with radix 10): an optional leading
plus sign, then a non-empty run of ASCII digits whose accumulated value must
fit in u8 (checked arithmetic, so any value above 255 is an error). A minus
sign is not accepted for the unsigned type; non-ASCII digits are rejected. -/
def rustParseU8 (cs : List Char) : Option Nat :=
  match cs with
  | [] => none
  | c :: rest =>
    let ds := if c = '+' then rest else c :: rest
    if ds.isEmpty then none
    else if ds.all isAsciiDigit then
      if digitsVal ds ≤ 255 then some (digitsVal ds) else none
    else none

/-- Decomposition of a string at every '.' character. Because the classifier's
pattern only allows digit-class characters inside a component and the match is
anchored at both ends, the pattern matches exactly when this split yields four
parts each of one to three digit-class characters, and the four capture groups
are then exactly the four parts. -/
def splitOnDot : List Char → List (List Char)
  | [] => [[]]
  | c :: rest =>
    if c = '.' then [] :: splitOnDot rest
    else
      match splitOnDot rest with
      | [] => [[c]]
      | p :: ps => (c :: p) :: ps

/-- One capture group of the classifier's pattern: one to three characters of
the Unicode digit class. -/
def reComponent (cs : List Char) : Bool :=
  decide (1 ≤ cs.length) && decide (cs.length ≤ 3) && cs.all isNd

/-- The four capture groups of the classifier's anchored pattern
(four digit-class components of one to three characters, separated by single
periods), when the whole input matches it. -/
def regexCaptures (s : List Char) : Option (List Char × List Char × List Char × List Char) :=
  match splitOnDot s with
  | [a, b, c, d] =>
    if reComponent a && reComponent b && reComponent c && reComponent d then
      some (a, b, c, d)
    else none
  | _ => none

/-- The classifier is_ipaddrv4: the input must match the anchored pattern of
four 1-to-3-digit components separated by periods, and every capture group
must additionally parse as a u8 (so each component's value is 0 to 255 and its
digits are ASCII). -/
def is_ipaddrv4 (s : List Char) : Bool :=
  match regexCaptures s with
  | some (a, b, c, d) =>
    (rustParseU8 a).isSome && (rustParseU8 b).isSome &&
      (rustParseU8 c).isSome && (rustParseU8 d).isSome
  | none => false

/-- A resolved address: the v4 or v6 variant of the standard library's IpAddr. -/
inductive IpAddr where
  | V4 (a b c d : Nat)
  | V6 (groups : List Nat)
deriving DecidableEq

/-- Rust char::to_digit for a radix up to 16: ASCII digits, and for radices
above ten also letters of either case. -/
def charToDigit (radix : Nat) (c : Char) : Option Nat :=
  let n := c.toNat
  if 48 ≤ n ∧ n - 48 < min radix 10 then some (n - 48)
  else if 10 < radix ∧ 97 ≤ n ∧ n - 97 + 10 < radix then some (n - 97 + 10)
  else if 10 < radix ∧ 65 ≤ n ∧ n - 65 + 10 < radix then some (n - 65 + 10)
  else none

/-- The digit-reading loop of the standard library's address parser
(Parser::read_number): consume digits greedily, with checked accumulation
bounded by the integer type's maximum and a cap on the digit count. Returns
the value, the number of digits consumed, and the remaining input. -/
def readDigits (radix maxDigits bound : Nat) : List Char → Nat → Nat → Option (Nat × Nat × List Char)
  | [], val, cnt => some (val, cnt, [])
  | c :: cs, val, cnt =>
    match charToDigit radix c with
    | none => some (val, cnt, c :: cs)
    | some d =>
      if bound < val * radix + d then none
      else if maxDigits < cnt + 1 then none
      else readDigits radix maxDigits bound cs (val * radix + d) (cnt + 1)

/-- Parser::read_number: at least one digit, and when a zero prefix is not
allowed (the IPv4 octet case), a leading zero is only accepted when the number
is the single digit zero. -/
def readNumber (radix maxDigits bound : Nat) (allowZeroPrefix : Bool) (cs : List Char) :
    Option (Nat × List Char) :=
  match readDigits radix maxDigits bound cs 0 0 with
  | none => none
  | some (val, cnt, rest) =>
    if cnt = 0 then none
    else if !allowZeroPrefix && cs.head? = some '0' && decide (1 < cnt) then none
    else some (val, rest)

/-- Parser::read_given_char: consume exactly the given character. -/
def readGivenChar (target : Char) : List Char → Option (List Char)
  | [] => none
  | c :: cs => if c = target then some cs else none

/-- Parser::read_separator: at every position after the first, a separator
character must be consumed before the inner parser runs. -/
def readSeparator {α : Type} (sep : Char) (i : Nat) (inner : List Char → Option (α × List Char))
    (cs : List Char) : Option (α × List Char) :=
  if i = 0 then inner cs
  else
    match readGivenChar sep cs with
    | some rest => inner rest
    | none => none

/-- Parser::read_ipv4_addr: four period-separated octets, each read by
read_number with radix 10, at most three digits, u8 checked arithmetic and no
leading zeros. -/
def readIpv4Addr (cs : List Char) : Option ((Nat × Nat × Nat × Nat) × List Char) := do
  let (a, cs1) ← readSeparator '.' 0 (readNumber 10 3 255 false) cs
  let (b, cs2) ← readSeparator '.' 1 (readNumber 10 3 255 false) cs1
  let (c, cs3) ← readSeparator '.' 2 (readNumber 10 3 255 false) cs2
  let (d, cs4) ← readSeparator '.' 3 (readNumber 10 3 255 false) cs3
  some ((a, b, c, d), cs4)

/-- The group-reading loop of Parser::read_ipv6_addr (read_groups): read up to
`remaining` colon-separated 16-bit hexadecimal groups starting at position
`i`; whenever at least two group slots remain, first try to read a trailing
embedded IPv4 address, which fills two groups and stops the loop with a flag.
Returns the groups read, the embedded-IPv4 flag, and the remaining input. -/
def readGroupsGo (i : Nat) : Nat → List Nat → List Char → List Nat × Bool × List Char
  | 0, acc, cs => (acc, false, cs)
  | remaining + 1, acc, cs =>
    match (if 1 ≤ remaining then readSeparator ':' i readIpv4Addr cs else none) with
    | some ((a, b, c, d), rest) => (acc ++ [a * 256 + b, c * 256 + d], true, rest)
    | none =>
      match readSeparator ':' i (readNumber 16 4 65535 true) cs with
      | some (g, rest) => readGroupsGo (i + 1) remaining (acc ++ [g]) rest
      | none => (acc, false, cs)

/-- Parser::read_ipv6_addr: read the head groups; a full eight groups is a
complete address, an embedded IPv4 before a double colon is rejected, and
otherwise a double colon followed by tail groups fills the remainder with the
elided zero groups in between. -/
def readIpv6Addr (cs : List Char) : Option (List Nat × List Char) :=
  let g := readGroupsGo 0 8 [] cs
  let head := g.1
  let headIpv4 := g.2.1
  let rest := g.2.2
  if head.length = 8 then some (head, rest)
  else if headIpv4 then none
  else
    match readGivenChar ':' rest with
    | none => none
    | some rest1 =>
      match readGivenChar ':' rest1 with
      | none => none
      | some rest2 =>
        let limit := 8 - (head.length + 1)
        let t := readGroupsGo 0 limit [] rest2
        let tail := t.1
        let rest3 := t.2.2
        some (head ++ List.replicate (8 - head.length - tail.length) 0 ++ tail, rest3)

/-- Rust IpAddr::from_str (Parser::parse_with over read_ip_addr): try the IPv4
reading first and tag the result V4, otherwise try the IPv6 reading and tag it
V6; in either case the whole input must be consumed. -/
def ipAddrFromStr (cs : List Char) : Option IpAddr :=
  match readIpv4Addr cs with
  | some ((a, b, c, d), rest) => if rest.isEmpty then some (.V4 a b c d) else none
  | none =>
    match readIpv6Addr cs with
    | some (gs, rest) => if rest.isEmpty then some (.V6 gs) else none
    | none => none

/-- Rust std AddrParseError: an opaque value with no public payload. -/
inductive StdAddrParseError where
  | mk
deriving DecidableEq

/-- The crate's error enum IpaddrConversionError, parameterised by the payload
types of the external collaborator errors: L is the lookup library's error and
I is the i/o error. Exactly three constructors, each wrapping the underlying
failure. -/
inductive IpaddrConversionError (L I : Type) where
  | LookupError (err : L)
  | AddrParseError (err : StdAddrParseError)
  | IoError (err : I)

/-- The Error::source implementation of IpaddrConversionError: the underlying
cause is not tracked, so it returns None for every value. -/
def IpaddrConversionError.sourceImpl {L I : Type} :
    IpaddrConversionError L I → Option (L ⊕ StdAddrParseError ⊕ I) := fun _ => none

/-- The Display implementation of IpaddrConversionError: each variant prints
its kind's name followed by the wrapped error, rendered by the payload type's
own formatter (Debug for the lookup error, Display for the others; the std
AddrParseError displays a fixed message). -/
def IpaddrConversionError.displayed {L I : Type} (fL : L → List Char) (fI : I → List Char) :
    IpaddrConversionError L I → List Char
  | .LookupError err => "LookupError ".toList ++ fL err
  | .AddrParseError _ => "AddrParseError ".toList ++ "invalid IP address syntax".toList
  | .IoError err => "IoError ".toList ++ fI err

/-- get_ipaddr: classify the input; a literal is parsed directly by
IpAddr::from_str into a one-element list (a parse error is wrapped as the
AddrParseError kind by the question-mark operator); anything else is passed
unchanged to the name-resolution collaborator, whose address list is returned
as is and whose error is wrapped as the LookupError kind. The collaborator
(dns_lookup::lookup_host) is a parameter of the embedding. -/
def get_ipaddr (L I : Type) (lookup_host : List Char → Except L (List IpAddr))
    (hostname : List Char) : Except (IpaddrConversionError L I) (List IpAddr) :=
  if is_ipaddrv4 hostname then
    match ipAddrFromStr hostname with
    | some a => .ok [a]
    | none => .error (.AddrParseError StdAddrParseError.mk)
  else
    match lookup_host hostname with
    | .ok addrs => .ok addrs
    | .error e => .error (.LookupError e)

/-! Structural lemmas about the dot decomposition. -/

theorem splitOnDot_ne_nil (s : List Char) : splitOnDot s ≠ [] := by
  induction s with
  | nil => simp [splitOnDot]
  | cons c rest ih =>
    simp only [splitOnDot]
    split
    · simp
    · rcases List.exists_cons_of_ne_nil ih with ⟨q, qs, hsp⟩
      rw [hsp]
      simp

theorem splitOnDot_cons_of_ne (c : Char) (rest : List Char) (hc : ¬ c = '.') :
    ∃ q qs, splitOnDot rest = q :: qs ∧ splitOnDot (c :: rest) = (c :: q) :: qs := by
  rcases List.exists_cons_of_ne_nil (splitOnDot_ne_nil rest) with ⟨q, qs, hsp⟩
  exact ⟨q, qs, hsp, by simp [splitOnDot, hc, hsp]⟩

theorem splitOnDot_no_dot (s : List Char) : ∀ p ∈ splitOnDot s, '.' ∉ p := by
  induction s with
  | nil =>
    intro p hp
    simp [splitOnDot] at hp
    simp [hp]
  | cons c rest ih =>
    intro p hp
    by_cases hc : c = '.'
    · subst hc
      simp [splitOnDot] at hp
      rcases hp with h | h
      · simp [h]
      · exact ih p h
    · rcases splitOnDot_cons_of_ne c rest hc with ⟨q, qs, hsp, hstep⟩
      rw [hstep] at hp
      rcases List.mem_cons.mp hp with h | h
      · subst h
        intro hmem
        rcases List.mem_cons.mp hmem with h1 | h1
        · exact hc h1.symm
        · exact ih q (by simp [hsp]) h1
      · exact ih p (by simp [hsp, h])

theorem splitOnDot_append_dot (a r : List Char) (ha : '.' ∉ a) :
    splitOnDot (a ++ '.' :: r) = a :: splitOnDot r := by
  induction a with
  | nil => simp [splitOnDot]
  | cons c a' ih =>
    have hc : ¬ c = '.' := by
      intro h
      exact ha (by simp [h])
    have ha' : '.' ∉ a' := fun h => ha (by simp [h])
    have hrec := ih ha'
    rcases splitOnDot_cons_of_ne c (a' ++ '.' :: r) hc with ⟨q, qs, hsp, hstep⟩
    rw [List.cons_append, hstep]
    rw [hrec] at hsp
    injection hsp with h1 h2
    rw [h1, h2]

theorem splitOnDot_of_no_dot (a : List Char) (ha : '.' ∉ a) : splitOnDot a = [a] := by
  induction a with
  | nil => simp [splitOnDot]
  | cons c a' ih =>
    have hc : ¬ c = '.' := by
      intro h
      exact ha (by simp [h])
    have ha' : '.' ∉ a' := fun h => ha (by simp [h])
    rcases splitOnDot_cons_of_ne c a' hc with ⟨q, qs, hsp, hstep⟩
    rw [ih ha'] at hsp
    injection hsp with h1 h2
    rw [hstep, h1, h2]

/-- Left inverse of the dot decomposition: interleave the parts with periods. -/
def joinDots : List (List Char) → List Char
  | [] => []
  | [p] => p
  | p :: ps => p ++ '.' :: joinDots ps

theorem joinDots_splitOnDot (s : List Char) : joinDots (splitOnDot s) = s := by
  induction s with
  | nil => simp [splitOnDot, joinDots]
  | cons c rest ih =>
    by_cases hc : c = '.'
    · subst hc
      rcases List.exists_cons_of_ne_nil (splitOnDot_ne_nil rest) with ⟨q, qs, hsp⟩
      rw [hsp] at ih
      simp only [splitOnDot, if_pos rfl, hsp, joinDots]
      simp [ih]
    · rcases splitOnDot_cons_of_ne c rest hc with ⟨q, qs, hsp, hstep⟩
      rw [hsp] at ih
      rw [hstep]
      cases qs with
      | nil =>
        simp only [joinDots] at ih ⊢
        rw [ih]
      | cons q2 qs2 =>
        simp only [joinDots] at ih ⊢
        rw [List.cons_append, ih]

/-! Lemmas relating the pattern's digit class, the ASCII digits and the u8
parse of a capture group. -/

theorem isNd_of_isAsciiDigit (c : Char) (h : isAsciiDigit c = true) : isNd c = true := by
  simp only [isAsciiDigit, Bool.and_eq_true, decide_eq_true_eq] at h
  simp only [isNd, List.any_eq_true]
  refine ⟨(48, 57), by simp [ndRanges], ?_⟩
  simp [h.1, h.2]

theorem rustParseU8_isSome_iff (c : Char) (rest : List Char) (hc : ¬ c = '+') :
    (rustParseU8 (c :: rest)).isSome = true ↔
      ((c :: rest).all isAsciiDigit = true ∧ digitsVal (c :: rest) ≤ 255) := by
  by_cases h1 : (c :: rest).all isAsciiDigit
  · by_cases h2 : digitsVal (c :: rest) ≤ 255
    · simp [rustParseU8, hc, h1, h2]
    · simp [rustParseU8, hc, h1, h2]
  · simp [rustParseU8, hc, h1]

/-- A valid component in the sense of the specification: one to three ASCII
decimal digits whose base-10 value is at most 255. -/
def validComp (cs : List Char) : Prop :=
  1 ≤ cs.length ∧ cs.length ≤ 3 ∧ cs.all isAsciiDigit = true ∧ digitsVal cs ≤ 255

instance validComp.decidable (cs : List Char) : Decidable (validComp cs) := by
  unfold validComp
  infer_instance

theorem reComponent_of_validComp (cs : List Char) (h : validComp cs) : reComponent cs = true := by
  obtain ⟨h1, h2, h3, h4⟩ := h
  simp only [reComponent, Bool.and_eq_true, decide_eq_true_eq]
  refine ⟨⟨h1, h2⟩, ?_⟩
  rw [List.all_eq_true] at h3 ⊢
  intro x hx
  exact isNd_of_isAsciiDigit x (h3 x hx)

theorem rustParseU8_isSome_of_validComp (cs : List Char) (h : validComp cs) :
    (rustParseU8 cs).isSome = true := by
  obtain ⟨h1, h2, h3, h4⟩ := h
  cases cs with
  | nil => simp at h1
  | cons c rest =>
    have hd : isAsciiDigit c = true := by
      rw [List.all_eq_true] at h3
      exact h3 c (by simp)
    have hc : ¬ c = '+' := by
      intro he
      subst he
      simp [isAsciiDigit] at hd
    rw [rustParseU8_isSome_iff c rest hc]
    exact ⟨h3, h4⟩

theorem validComp_of_re_parse (cs : List Char) (h1 : reComponent cs = true)
    (h2 : (rustParseU8 cs).isSome = true) : validComp cs := by
  simp only [reComponent, Bool.and_eq_true, decide_eq_true_eq] at h1
  obtain ⟨⟨hl1, hl2⟩, hnd⟩ := h1
  cases cs with
  | nil => simp at hl1
  | cons c rest =>
    have hndc : isNd c = true := by
      rw [List.all_eq_true] at hnd
      exact hnd c (by simp)
    have hc : ¬ c = '+' := by
      intro he
      subst he
      exact absurd hndc (by decide)
    rw [rustParseU8_isSome_iff c rest hc] at h2
    exact ⟨hl1, hl2, h2.1, h2.2⟩

theorem regexCaptures_eq_some (s a b c d : List Char) :
    regexCaptures s = some (a, b, c, d) ↔
      (splitOnDot s = [a, b, c, d] ∧ reComponent a = true ∧ reComponent b = true ∧
        reComponent c = true ∧ reComponent d = true) := by
  constructor
  · intro h
    unfold regexCaptures at h
    split at h
    · split at h
      · next x1 x2 x3 x4 heq hre =>
        injection h with h1
        obtain ⟨ha, hb, hc, hd⟩ : x1 = a ∧ x2 = b ∧ x3 = c ∧ x4 = d := by
          simpa using h1
        subst ha hb hc hd
        simp only [Bool.and_eq_true] at hre
        exact ⟨heq, hre.1.1.1, hre.1.1.2, hre.1.2, hre.2⟩
      · simp at h
    · simp at h
  · rintro ⟨hsp, h1, h2, h3, h4⟩
    unfold regexCaptures
    rw [hsp]
    simp [h1, h2, h3, h4]

/-- Full characterisation of the classifier: it accepts exactly the strings
made of four period-separated components, each of one to three ASCII digits
with value at most 255. -/
theorem is_ipaddrv4_iff (s : List Char) :
    is_ipaddrv4 s = true ↔
      ∃ a b c d, s = a ++ '.' :: (b ++ '.' :: (c ++ '.' :: d)) ∧
        validComp a ∧ validComp b ∧ validComp c ∧ validComp d := by
  constructor
  · intro h
    unfold is_ipaddrv4 at h
    cases hrc : regexCaptures s with
    | none => rw [hrc] at h; simp at h
    | some t =>
      obtain ⟨a, b, c, d⟩ := t
      rw [hrc] at h
      simp only [Bool.and_eq_true] at h
      obtain ⟨⟨⟨hpa, hpb⟩, hpc⟩, hpd⟩ := h
      rw [regexCaptures_eq_some] at hrc
      obtain ⟨hsp, h1, h2, h3, h4⟩ := hrc
      have hjoin := joinDots_splitOnDot s
      rw [hsp] at hjoin
      simp only [joinDots] at hjoin
      exact ⟨a, b, c, d, hjoin.symm, validComp_of_re_parse a h1 hpa,
        validComp_of_re_parse b h2 hpb, validComp_of_re_parse c h3 hpc,
        validComp_of_re_parse d h4 hpd⟩
  · rintro ⟨a, b, c, d, hs, ha, hb, hc, hd⟩
    have hdig : ∀ cs : List Char, validComp cs → '.' ∉ cs := by
      intro cs hv hmem
      obtain ⟨_, _, h3, _⟩ := hv
      rw [List.all_eq_true] at h3
      have := h3 '.' hmem
      simp [isAsciiDigit] at this
    have hsp : splitOnDot s = [a, b, c, d] := by
      rw [hs, splitOnDot_append_dot a _ (hdig a ha), splitOnDot_append_dot b _ (hdig b hb),
        splitOnDot_append_dot c _ (hdig c hc), splitOnDot_of_no_dot d (hdig d hd)]
    unfold is_ipaddrv4
    have hrc : regexCaptures s = some (a, b, c, d) := by
      rw [regexCaptures_eq_some]
      exact ⟨hsp, reComponent_of_validComp a ha, reComponent_of_validComp b hb,
        reComponent_of_validComp c hc, reComponent_of_validComp d hd⟩
    rw [hrc]
    simp [rustParseU8_isSome_of_validComp a ha, rustParseU8_isSome_of_validComp b hb,
      rustParseU8_isSome_of_validComp c hc, rustParseU8_isSome_of_validComp d hd]

theorem validComp_mem_digit (cs : List Char) (h : validComp cs) :
    ∀ x ∈ cs, isAsciiDigit x = true := by
  obtain ⟨_, _, h3, _⟩ := h
  rw [List.all_eq_true] at h3
  exact h3

theorem validComp_no_dot (cs : List Char) (h : validComp cs) : '.' ∉ cs := by
  intro hmem
  have := validComp_mem_digit cs h '.' hmem
  simp [isAsciiDigit] at this

theorem validComp_ne_nil (cs : List Char) (h : validComp cs) : cs ≠ [] := by
  obtain ⟨h1, _, _, _⟩ := h
  intro he
  subst he
  simp at h1

/-- The classifier accepts only when the dot decomposition has exactly four
parts, every one of them a valid component. -/
theorem is_ipaddrv4_split (s : List Char) (h : is_ipaddrv4 s = true) :
    (splitOnDot s).length = 4 ∧ ∀ p ∈ splitOnDot s, validComp p := by
  rw [is_ipaddrv4_iff] at h
  obtain ⟨a, b, c, d, hs, ha, hb, hc, hd⟩ := h
  have hsp : splitOnDot s = [a, b, c, d] := by
    rw [hs, splitOnDot_append_dot a _ (validComp_no_dot a ha),
      splitOnDot_append_dot b _ (validComp_no_dot b hb),
      splitOnDot_append_dot c _ (validComp_no_dot c hc),
      splitOnDot_of_no_dot d (validComp_no_dot d hd)]
  rw [hsp]
  refine ⟨rfl, ?_⟩
  intro p hp
  rcases List.mem_cons.mp hp with h1 | hp
  · rw [h1]; exact ha
  rcases List.mem_cons.mp hp with h1 | hp
  · rw [h1]; exact hb
  rcases List.mem_cons.mp hp with h1 | hp
  · rw [h1]; exact hc
  rcases List.mem_cons.mp hp with h1 | hp
  · rw [h1]; exact hd
  · simp at hp

/-- Every character of an accepted string is an ASCII digit or a period. -/
theorem is_ipaddrv4_chars (s : List Char) (h : is_ipaddrv4 s = true) :
    ∀ x ∈ s, isAsciiDigit x = true ∨ x = '.' := by
  rw [is_ipaddrv4_iff] at h
  obtain ⟨a, b, c, d, hs, ha, hb, hc, hd⟩ := h
  subst hs
  intro x hx
  rcases List.mem_append.mp hx with h1 | hx
  · exact Or.inl (validComp_mem_digit a ha x h1)
  rcases List.mem_cons.mp hx with h1 | hx
  · exact Or.inr h1
  rcases List.mem_append.mp hx with h1 | hx
  · exact Or.inl (validComp_mem_digit b hb x h1)
  rcases List.mem_cons.mp hx with h1 | hx
  · exact Or.inr h1
  rcases List.mem_append.mp hx with h1 | hx
  · exact Or.inl (validComp_mem_digit c hc x h1)
  rcases List.mem_cons.mp hx with h1 | hx
  · exact Or.inr h1
  · exact Or.inl (validComp_mem_digit d hd x hx)

/-- An accepted string starts with an ASCII digit. -/
theorem is_ipaddrv4_head_digit (s : List Char) (h : is_ipaddrv4 s = true) :
    ∃ c, s.head? = some c ∧ isAsciiDigit c = true := by
  rw [is_ipaddrv4_iff] at h
  obtain ⟨a, b, c, d, hs, ha, hb, hc, hd⟩ := h
  obtain ⟨x, a', hx⟩ := List.exists_cons_of_ne_nil (validComp_ne_nil a ha)
  refine ⟨x, ?_, validComp_mem_digit a ha x (by simp [hx])⟩
  rw [hs, hx]
  simp

/-- An accepted string ends with an ASCII digit. -/
theorem is_ipaddrv4_getLast_digit (s : List Char) (h : is_ipaddrv4 s = true) :
    ∃ c, s.getLast? = some c ∧ isAsciiDigit c = true := by
  rw [is_ipaddrv4_iff] at h
  obtain ⟨a, b, c, d, hs, ha, hb, hc, hd⟩ := h
  have hd' : d ≠ [] := validComp_ne_nil d hd
  have h1 : s.getLast? = d.getLast? := by
    rw [hs]
    rw [show a ++ '.' :: (b ++ '.' :: (c ++ '.' :: d)) =
      (a ++ '.' :: (b ++ '.' :: (c ++ '.' :: []))) ++ d by simp]
    exact List.getLast?_append_of_ne_nil _ hd'
  rcases List.eq_nil_or_concat d with he | ⟨d0, x, hdx⟩
  · exact absurd he hd'
  refine ⟨x, ?_, validComp_mem_digit d hd x (by simp [hdx])⟩
  rw [h1, hdx, List.concat_eq_append, List.getLast?_concat]

/-! Lemmas about the standard library parser model. -/

theorem readDigits_mem (radix maxDigits bound : Nat) :
    ∀ (cs : List Char) (val cnt v c2 : Nat) (rest : List Char),
      readDigits radix maxDigits bound cs val cnt = some (v, c2, rest) →
      ∀ x ∈ rest, x ∈ cs := by
  intro cs
  induction cs with
  | nil =>
    intro val cnt v c2 rest h
    simp only [readDigits, Option.some.injEq, Prod.mk.injEq] at h
    obtain ⟨_, _, h3⟩ := h
    subst h3
    simp
  | cons c cs' ih =>
    intro val cnt v c2 rest h
    rw [readDigits] at h
    split at h
    · simp only [Option.some.injEq, Prod.mk.injEq] at h
      obtain ⟨_, _, h3⟩ := h
      subst h3
      exact fun x hx => hx
    · split at h
      · exact absurd h (by simp)
      · split at h
        · exact absurd h (by simp)
        · intro x hx
          exact List.mem_cons_of_mem c (ih _ _ _ _ _ h x hx)

theorem readNumber_mem (radix maxDigits bound : Nat) (azp : Bool) (cs : List Char)
    (v : Nat) (rest : List Char)
    (h : readNumber radix maxDigits bound azp cs = some (v, rest)) :
    ∀ x ∈ rest, x ∈ cs := by
  unfold readNumber at h
  split at h
  · exact absurd h (by simp)
  next val cnt r heq =>
    split at h
    · exact absurd h (by simp)
    · split at h
      · exact absurd h (by simp)
      · simp only [Option.some.injEq, Prod.mk.injEq] at h
        obtain ⟨_, h2⟩ := h
        subst h2
        exact readDigits_mem radix maxDigits bound cs 0 0 val cnt r heq

theorem readGivenChar_eq_none (target : Char) (cs : List Char)
    (h : ∀ x ∈ cs, ¬ x = target) : readGivenChar target cs = none := by
  cases cs with
  | nil => rfl
  | cons c cs' => simp [readGivenChar, h c (by simp)]

theorem readGroupsGo_no_colon (cs : List Char) (h : ∀ x ∈ cs, ¬ x = ':') :
    (readGroupsGo 0 8 [] cs).1.length ≤ 2 ∧
      ((readGroupsGo 0 8 [] cs).2.1 = false → ∀ x ∈ (readGroupsGo 0 8 [] cs).2.2, ¬ x = ':') := by
  have hstep : readGroupsGo 0 8 [] cs =
      match readIpv4Addr cs with
      | some ((a, b, c, d), rest) => ([a * 256 + b, c * 256 + d], true, rest)
      | none =>
        match readNumber 16 4 65535 true cs with
        | some (g, rest) => readGroupsGo 1 7 [g] rest
        | none => ([], false, cs) := rfl
  cases h4 : readIpv4Addr cs with
  | some t =>
    obtain ⟨⟨a, b, c, d⟩, rest⟩ := t
    have hv : readGroupsGo 0 8 [] cs = ([a * 256 + b, c * 256 + d], true, rest) := by
      rw [hstep, h4]
    rw [hv]
    simp
  | none =>
    cases hn : readNumber 16 4 65535 true cs with
    | none =>
      have hv : readGroupsGo 0 8 [] cs = ([], false, cs) := by
        rw [hstep, h4, hn]
      rw [hv]
      exact ⟨by simp, fun _ => h⟩
    | some t =>
      obtain ⟨g, rest⟩ := t
      have hrest : ∀ x ∈ rest, ¬ x = ':' :=
        fun x hx => h x (readNumber_mem 16 4 65535 true cs g rest hn x hx)
      have hgc : readGivenChar ':' rest = none := readGivenChar_eq_none ':' rest hrest
      have hsep : ∀ (α : Type) (inner : List Char → Option (α × List Char)),
          readSeparator ':' 1 inner rest = none := by
        intro α inner
        unfold readSeparator
        rw [if_neg (by norm_num), hgc]
      have hstep2 : readGroupsGo 1 7 [g] rest =
          match (if 1 ≤ 6 then readSeparator ':' 1 readIpv4Addr rest else none) with
          | some ((a, b, c, d), r2) => ([g] ++ [a * 256 + b, c * 256 + d], true, r2)
          | none =>
            match readSeparator ':' 1 (readNumber 16 4 65535 true) rest with
            | some (g2, r2) => readGroupsGo 2 6 ([g] ++ [g2]) r2
            | none => ([g], false, rest) := rfl
      have hv : readGroupsGo 0 8 [] cs = ([g], false, rest) := by
        rw [hstep, h4, hn]
        show readGroupsGo 1 7 [g] rest = ([g], false, rest)
        rw [hstep2, if_pos (by norm_num), hsep, hsep]
      rw [hv]
      exact ⟨by simp, fun _ => hrest⟩

theorem readIpv6Addr_no_colon (cs : List Char) (h : ∀ x ∈ cs, ¬ x = ':') :
    readIpv6Addr cs = none := by
  obtain ⟨hlen, hflag⟩ := readGroupsGo_no_colon cs h
  unfold readIpv6Addr
  rcases hg : readGroupsGo 0 8 [] cs with ⟨head, flag, rest⟩
  rw [hg] at hlen hflag
  simp only at hlen hflag ⊢
  have h8 : ¬ head.length = 8 := by omega
  rw [if_neg h8]
  cases flag with
  | true => simp
  | false =>
    have hrest := hflag rfl
    rw [readGivenChar_eq_none ':' rest hrest]
    simp

theorem is_ipaddrv4_no_colon (s : List Char) (h : is_ipaddrv4 s = true) :
    ∀ x ∈ s, ¬ x = ':' := by
  intro x hx he
  rcases is_ipaddrv4_chars s h x hx with hd | hdot
  · subst he
    simp [isAsciiDigit] at hd
  · subst he
    exact absurd hdot (by decide)

/-- On a classifier-accepted string, a successful direct parse can only yield
the v4 variant: the IPv6 reading fails outright because the string contains no
colon. -/
theorem ipAddrFromStr_literal_v4 (s : List Char) (h : is_ipaddrv4 s = true) :
    ∀ addr, ipAddrFromStr s = some addr → ∃ a b c d, addr = IpAddr.V4 a b c d := by
  intro addr ha
  unfold ipAddrFromStr at ha
  split at ha
  next a b c d rest heq =>
    split at ha
    · injection ha with h1
      exact ⟨a, b, c, d, h1.symm⟩
    · simp at ha
  next heq =>
    rw [readIpv6Addr_no_colon s (is_ipaddrv4_no_colon s h)] at ha
    simp at ha

/-! Claim theorems. -/

/-- Claim C1 (inconsistency witness): the classifier accepts "00.0.0.0", but
the standard library's strict literal parse rejects the leading-zero octet, so
get_ipaddr returns the wrapped parse failure instead of a one-element address
list with the direct parse of the string. -/
theorem get_ipaddr_leading_zero_inconsistency :
    is_ipaddrv4 ("00.0.0.0".toList) = true ∧
      ipAddrFromStr ("00.0.0.0".toList) = none ∧
      get_ipaddr Unit Unit (fun _ => Except.ok []) ("00.0.0.0".toList) =
        Except.error (IpaddrConversionError.AddrParseError StdAddrParseError.mk) :=
  ⟨by decide, by rfl, by rfl⟩

/-- Claim C2: every string of exactly four components separated by single
periods, each component one to three ASCII decimal digits whose base-10 value
is between 0 and 255, is accepted by the classifier. -/
theorem is_ipaddrv4_accepts_valid (a b c d : List Char)
    (ha : validComp a) (hb : validComp b) (hc : validComp c) (hd : validComp d) :
    is_ipaddrv4 (a ++ '.' :: (b ++ '.' :: (c ++ '.' :: d))) = true := by
  rw [is_ipaddrv4_iff]
  exact ⟨a, b, c, d, rfl, ha, hb, hc, hd⟩

theorem is_ipaddrv4_accepts_valid_witness :
    validComp ['2', '5', '5'] ∧ validComp ['0'] ∧ validComp ['1', '0'] ∧ validComp ['3'] ∧
      is_ipaddrv4 (['2', '5', '5'] ++ '.' :: (['0'] ++ '.' :: (['1', '0'] ++ '.' :: ['3']))) =
        true :=
  ⟨by decide, by decide, by decide, by decide,
    is_ipaddrv4_accepts_valid ['2', '5', '5'] ['0'] ['1', '0'] ['3']
      (by decide) (by decide) (by decide) (by decide)⟩

/-- The rejection conditions of claim C3 read literally, components being the
parts of the dot decomposition, and the last condition exactly as stated: any
leading or trailing characters around an otherwise valid literal. -/
def rejectionConditionsAsStated (s : List Char) : Prop :=
  (∃ p ∈ splitOnDot s, 4 ≤ p.length ∧ p.all isAsciiDigit = true) ∨
  (∃ p ∈ splitOnDot s, p.all isAsciiDigit = true ∧ 255 < digitsVal p) ∨
  (splitOnDot s).length ≠ 4 ∨
  (∃ p ∈ splitOnDot s, ∃ c ∈ p, isAsciiDigit c = false) ∨
  (∃ pre v post, s = pre ++ v ++ post ∧ is_ipaddrv4 v = true ∧ (pre ≠ [] ∨ post ≠ []))

/-- Claim C3 as stated is false: "11.2.3.4" has a leading character in front
of the otherwise valid literal "1.2.3.4", yet the classifier accepts it. -/
theorem rejection_as_stated_counterexample :
    ¬ (∀ s : List Char, rejectionConditionsAsStated s → is_ipaddrv4 s = false) := by
  intro hclaim
  have hbad : rejectionConditionsAsStated ("11.2.3.4".toList) :=
    Or.inr (Or.inr (Or.inr (Or.inr
      ⟨['1'], "1.2.3.4".toList, [], by decide, by decide, Or.inl (by decide)⟩)))
  have hfalse := hclaim _ hbad
  have htrue : is_ipaddrv4 ("11.2.3.4".toList) = true := by decide
  rw [htrue] at hfalse
  exact absurd hfalse (by simp)

/-- The rejection conditions of claim C3 with the final disjunct weakened just
enough: added leading characters beginning with a non-digit, or added trailing
characters ending with a non-digit (surrounding whitespace in particular). -/
def rejectionConditions (s : List Char) : Prop :=
  (∃ p ∈ splitOnDot s, 4 ≤ p.length ∧ p.all isAsciiDigit = true) ∨
  (∃ p ∈ splitOnDot s, p.all isAsciiDigit = true ∧ 255 < digitsVal p) ∨
  (splitOnDot s).length ≠ 4 ∨
  (∃ p ∈ splitOnDot s, ∃ c ∈ p, isAsciiDigit c = false) ∨
  (∃ pre v post, s = pre ++ v ++ post ∧ is_ipaddrv4 v = true ∧
    ((∃ c, pre.head? = some c ∧ isAsciiDigit c = false) ∨
     (∃ c, post.getLast? = some c ∧ isAsciiDigit c = false)))

/-- Claim C3 amended: a component of four or more digits, a component value
above 255, a component count other than four, a non-digit character inside a
component, or surrounding characters that do not extend the literal into a
longer all-digit component (in particular surrounding whitespace) all make the
classifier return false. -/
theorem is_ipaddrv4_rejects (s : List Char) (h : rejectionConditions s) :
    is_ipaddrv4 s = false := by
  by_contra hne
  have ht : is_ipaddrv4 s = true := by
    cases hb : is_ipaddrv4 s with
    | false => exact absurd hb hne
    | true => rfl
  obtain ⟨hlen, hall⟩ := is_ipaddrv4_split s ht
  rcases h with h | h | h | h | h
  · obtain ⟨p, hp, h4, hdig⟩ := h
    obtain ⟨_, hl3, _, _⟩ := hall p hp
    omega
  · obtain ⟨p, hp, hdig, hval⟩ := h
    obtain ⟨_, _, _, hv⟩ := hall p hp
    omega
  · exact h hlen
  · obtain ⟨p, hp, c, hcp, hcd⟩ := h
    have := validComp_mem_digit p (hall p hp) c hcp
    rw [this] at hcd
    exact absurd hcd (by simp)
  · obtain ⟨pre, v, post, hs, hv, hcase⟩ := h
    rcases hcase with ⟨c, hc, hcd⟩ | ⟨c, hc, hcd⟩
    · obtain ⟨c0, hc0, hc0d⟩ := is_ipaddrv4_head_digit s ht
      cases pre with
      | nil => simp at hc
      | cons x pre' =>
        simp only [List.head?_cons, Option.some.injEq] at hc
        rw [← hc] at hcd
        have hh : s.head? = some x := by
          rw [hs]
          simp
        rw [hh] at hc0
        injection hc0 with h1
        rw [← h1] at hc0d
        rw [hc0d] at hcd
        exact absurd hcd (by simp)
    · obtain ⟨c0, hc0, hc0d⟩ := is_ipaddrv4_getLast_digit s ht
      have hpost : post ≠ [] := by
        intro he
        subst he
        simp at hc
      have hh : s.getLast? = post.getLast? := by
        rw [hs, List.getLast?_append_of_ne_nil _ hpost]
      rw [hh, hc] at hc0
      injection hc0 with h1
      rw [← h1] at hc0d
      rw [hc0d] at hcd
      exact absurd hcd (by simp)

theorem is_ipaddrv4_rejects_witness :
    (∃ p ∈ splitOnDot ("256.0.0.0".toList), p.all isAsciiDigit = true ∧ 255 < digitsVal p) ∧
      is_ipaddrv4 ("256.0.0.0".toList) = false :=
  ⟨by decide, is_ipaddrv4_rejects _ (Or.inr (Or.inl (by decide)))⟩

/-- Claim C4: the classifier accepts only strings whose components are ASCII
decimal digits; any input containing a non-ASCII character, non-ASCII Unicode
decimal digits included, is rejected. -/
theorem is_ipaddrv4_ascii_only (s : List Char) :
    (is_ipaddrv4 s = true → ∀ p ∈ splitOnDot s, p.all isAsciiDigit = true) ∧
    (∀ c ∈ s, 128 ≤ c.toNat → is_ipaddrv4 s = false) := by
  constructor
  · intro h p hp
    obtain ⟨_, hall⟩ := is_ipaddrv4_split s h
    obtain ⟨_, _, h3, _⟩ := hall p hp
    exact h3
  · intro c hc hna
    by_contra hne
    have ht : is_ipaddrv4 s = true := by
      cases hb : is_ipaddrv4 s with
      | false => exact absurd hb hne
      | true => rfl
    rcases is_ipaddrv4_chars s ht c hc with hd | hdot
    · simp only [isAsciiDigit, Bool.and_eq_true, decide_eq_true_eq] at hd
      omega
    · subst hdot
      exact absurd hna (by decide)

theorem is_ipaddrv4_ascii_only_witness :
    (Char.ofNat 1632 ∈ [Char.ofNat 1632, '.', '0', '.', '0', '.', '0']) ∧
      128 ≤ (Char.ofNat 1632).toNat ∧
      is_ipaddrv4 [Char.ofNat 1632, '.', '0', '.', '0', '.', '0'] = false :=
  ⟨by decide, by decide,
    (is_ipaddrv4_ascii_only [Char.ofNat 1632, '.', '0', '.', '0', '.', '0']).2
      (Char.ofNat 1632) (by decide) (by decide)⟩

/-- Claim C5: for a classifier-accepted string the collaborator is never
consulted — the result of get_ipaddr is identical under any two behaviours of
the name-resolution collaborator, whether or not the direct parse succeeds. -/
theorem get_ipaddr_literal_resolver_independent (L I : Type) (s : List Char)
    (h : is_ipaddrv4 s = true) (r1 r2 : List Char → Except L (List IpAddr)) :
    get_ipaddr L I r1 s = get_ipaddr L I r2 s := by
  unfold get_ipaddr
  rw [h]
  simp

theorem get_ipaddr_literal_resolver_independent_witness :
    is_ipaddrv4 ("1.2.3.4".toList) = true ∧
      get_ipaddr Unit Unit (fun _ => Except.error ()) ("1.2.3.4".toList) =
        get_ipaddr Unit Unit (fun _ => Except.ok []) ("1.2.3.4".toList) :=
  ⟨by decide,
    get_ipaddr_literal_resolver_independent Unit Unit ("1.2.3.4".toList) (by decide) _ _⟩

/-- Claim C6: for a string the classifier rejects, get_ipaddr applies the
collaborator to the unchanged input and returns a successful collaborator's
ordered address sequence unmodified — no deduplication, no reordering, no
filtering by family. -/
theorem get_ipaddr_delegates_unmodified (L I : Type) (s : List Char)
    (h : is_ipaddrv4 s = false) (r : List Char → Except L (List IpAddr))
    (addrs : List IpAddr) (hr : r s = Except.ok addrs) :
    get_ipaddr L I r s = Except.ok addrs := by
  unfold get_ipaddr
  rw [h, hr]
  simp

theorem get_ipaddr_delegates_unmodified_witness :
    is_ipaddrv4 ("localhost".toList) = false ∧
      get_ipaddr Unit Unit
        (fun _ => Except.ok [IpAddr.V6 [0, 0, 0, 0, 0, 0, 0, 1], IpAddr.V4 127 0 0 1,
          IpAddr.V6 [0, 0, 0, 0, 0, 0, 0, 1]]) ("localhost".toList) =
        Except.ok [IpAddr.V6 [0, 0, 0, 0, 0, 0, 0, 1], IpAddr.V4 127 0 0 1,
          IpAddr.V6 [0, 0, 0, 0, 0, 0, 0, 1]] :=
  ⟨by decide,
    get_ipaddr_delegates_unmodified Unit Unit ("localhost".toList) (by decide) _ _ rfl⟩

/-- Claim C7: failures of get_ipaddr fall into exactly the three declared
kinds, each wrapping an underlying failure; a collaborator failure is wrapped
as the lookup kind and returned immediately with no addresses, and a direct
parse rejection of a classifier-accepted string yields the distinct
parse-failure kind (the function stays total — no panic). -/
theorem get_ipaddr_error_taxonomy (L I : Type) :
    (∀ e : IpaddrConversionError L I,
      (∃ l, e = IpaddrConversionError.LookupError l) ∨
      (∃ a, e = IpaddrConversionError.AddrParseError a) ∨
      (∃ i, e = IpaddrConversionError.IoError i)) ∧
    (∀ (r : List Char → Except L (List IpAddr)) (s : List Char) (l : L),
      is_ipaddrv4 s = false → r s = Except.error l →
      get_ipaddr L I r s = Except.error (IpaddrConversionError.LookupError l)) ∧
    (∀ (r : List Char → Except L (List IpAddr)) (s : List Char),
      is_ipaddrv4 s = true → ipAddrFromStr s = none →
      get_ipaddr L I r s =
        Except.error (IpaddrConversionError.AddrParseError StdAddrParseError.mk)) := by
  refine ⟨?_, ?_, ?_⟩
  · intro e
    cases e with
    | LookupError l => exact Or.inl ⟨l, rfl⟩
    | AddrParseError a => exact Or.inr (Or.inl ⟨a, rfl⟩)
    | IoError i => exact Or.inr (Or.inr ⟨i, rfl⟩)
  · intro r s l h hr
    unfold get_ipaddr
    rw [h, hr]
    simp
  · intro r s h hp
    unfold get_ipaddr
    rw [h, hp]
    simp

theorem get_ipaddr_error_taxonomy_witness :
    is_ipaddrv4 ("fred.barney.will.mork".toList) = false ∧
      get_ipaddr Nat Unit (fun _ => Except.error 7) ("fred.barney.will.mork".toList) =
        Except.error (IpaddrConversionError.LookupError 7) ∧
      is_ipaddrv4 ("00.0.0.0".toList) = true ∧
      get_ipaddr Nat Unit (fun _ => Except.error 7) ("00.0.0.0".toList) =
        Except.error (IpaddrConversionError.AddrParseError StdAddrParseError.mk) :=
  ⟨by decide, (get_ipaddr_error_taxonomy Nat Unit).2.1 _ _ 7 (by decide) rfl,
    by decide, (get_ipaddr_error_taxonomy Nat Unit).2.2 _ _ (by decide) (by rfl)⟩

/-- Claim C8: the classifier is total — for every input string, empty, long or
non-ASCII alike, it returns one of the two boolean values (in the embedding it
is a total computable function into Bool and cannot fail). -/
theorem is_ipaddrv4_total (s : List Char) :
    is_ipaddrv4 s = true ∨ is_ipaddrv4 s = false := by
  cases h : is_ipaddrv4 s
  · exact Or.inr rfl
  · exact Or.inl rfl

/-- Claim C9: the source method returns None for every error value, so the
underlying collaborator or parser failure can never be recovered through the
standard source chain, even though Display renders the wrapped error. -/
theorem ipaddr_error_source_none (L I : Type) (fL : L → List Char) (fI : I → List Char) :
    (∀ e : IpaddrConversionError L I, IpaddrConversionError.sourceImpl e = none) ∧
    (∀ l : L, IpaddrConversionError.displayed fL fI (IpaddrConversionError.LookupError l) =
      "LookupError ".toList ++ fL l) ∧
    (∀ i : I, IpaddrConversionError.displayed fL fI (IpaddrConversionError.IoError i) =
      "IoError ".toList ++ fI i) :=
  ⟨fun _ => rfl, fun _ => rfl, fun _ => rfl⟩

/-- Claim C10: when the classifier accepts the string and get_ipaddr succeeds,
the single returned address is the v4-tagged variant. -/
theorem get_ipaddr_literal_yields_v4 (L I : Type) (r : List Char → Except L (List IpAddr))
    (s : List Char) (h : is_ipaddrv4 s = true) (addrs : List IpAddr)
    (hok : get_ipaddr L I r s = Except.ok addrs) :
    ∃ a b c d, addrs = [IpAddr.V4 a b c d] := by
  unfold get_ipaddr at hok
  rw [h] at hok
  simp only [if_pos] at hok
  cases hfs : ipAddrFromStr s with
  | none =>
    rw [hfs] at hok
    simp at hok
  | some addr =>
    rw [hfs] at hok
    simp only [Except.ok.injEq] at hok
    obtain ⟨a, b, c, d, ha⟩ := ipAddrFromStr_literal_v4 s h addr hfs
    exact ⟨a, b, c, d, by rw [← hok, ha]⟩

theorem get_ipaddr_literal_yields_v4_witness :
    is_ipaddrv4 ("1.2.3.4".toList) = true ∧
      get_ipaddr Unit Unit (fun _ => Except.ok []) ("1.2.3.4".toList) =
        Except.ok [IpAddr.V4 1 2 3 4] ∧
      (∃ a b c d, ([IpAddr.V4 1 2 3 4] : List IpAddr) = [IpAddr.V4 a b c d]) :=
  ⟨by decide, by rfl,
    get_ipaddr_literal_yields_v4 Unit Unit (fun _ => Except.ok []) ("1.2.3.4".toList)
      (by decide) [IpAddr.V4 1 2 3 4] (by rfl)⟩
